import Mathlib

/-!
Verification development for the Position Reconciliation Error Alerts System
(`reconciliation_standalone.py`).

The reconciliation core (`calculate_severity`, lines 140-152, and
`reconcile_positions`, lines 155-280 of the source) is shallowly embedded
below.  Modelling conventions:

* Python numbers (ints and floats) are modelled as exact rationals `ℚ`;
  the tolerance constant `0.1` is the exact rational 1/10.
* Pandas dataframes are modelled as lists of rows.  The source mutates its
  two input dataframes by writing a `pos_key` column (lines 166-167); the
  top-level model `reconcile_positions_df` returns the two post-call
  dataframes together with the break list to make that effect explicit,
  while `reconcile_positions` is the break-list computation itself.
* Python `set` iteration order is unspecified; the model fixes the
  deterministic first-occurrence order (`List.dedup` keeps the first copy),
  one concrete instance of the behaviour of the source.
* `internal_df[internal_df['pos_key'] == key].iloc[0]` (first row with the
  key) is modelled by `List.find?`.  When a key taken from the key set has
  no row the lookup contributes nothing; that branch is unreachable because
  every key in the key set comes from a row.
* The human-readable `details` strings keep the fixed English sentences of
  the source; the numeric interpolation with thousands separators is
  display-only and rendered with `toString`.
* `round(x, 2)` is Python 3 rounding: round half to even, at 2 decimals.
-/

attribute [local semireducible] Rat.mul Rat.add Rat.sub Rat.inv Rat.ofScientific

/-- Enum `BreakType` of the source (lines 25-30). -/
inductive BreakType where
  | QUANTITY_MISMATCH
  | PRICE_MISMATCH
  | MARKET_VALUE_MISMATCH
  | MISSING_IN_SOURCE
  | MISSING_IN_TARGET
deriving DecidableEq, Repr

/-- The `.value` string of each `BreakType` member. -/
def BreakType.value : BreakType → String
  | .QUANTITY_MISMATCH => "Quantity Mismatch"
  | .PRICE_MISMATCH => "Price Mismatch"
  | .MARKET_VALUE_MISMATCH => "Market Value Mismatch"
  | .MISSING_IN_SOURCE => "Missing in Source"
  | .MISSING_IN_TARGET => "Missing in Target"

/-- Enum `Severity` of the source (lines 33-37). -/
inductive Severity where
  | CRITICAL
  | HIGH
  | MEDIUM
  | LOW
deriving DecidableEq, Repr

/-- The `.value` string of each `Severity` member. -/
def Severity.value : Severity → String
  | .CRITICAL => "CRITICAL"
  | .HIGH => "HIGH"
  | .MEDIUM => "MEDIUM"
  | .LOW => "LOW"

/-- Numeric rank of a severity tier (CRITICAL > HIGH > MEDIUM > LOW),
used to state monotonicity of the classifier. -/
def sevRank : Severity → ℕ
  | .LOW => 0
  | .MEDIUM => 1
  | .HIGH => 2
  | .CRITICAL => 3

/-- The `TOLERANCES` configuration dict (lines 41-46). -/
structure Tolerances where
  quantity_pct : ℚ
  price_pct : ℚ
  market_value_pct : ℚ
  min_threshold : ℚ
deriving Repr

/-- Constants `TOLERANCES`: 1% quantity, 0.1% price, 2% market value,
$100 de minimis. -/
def TOLERANCES : Tolerances :=
  { quantity_pct := 1, price_pct := 1/10, market_value_pct := 2,
    min_threshold := 100 }

/-- One position row, the fields of the dataframes built in
`generate_sample_data` and consumed by `reconcile_positions`. -/
structure Position where
  symbol : String
  account_id : String
  quantity : ℚ
  price : ℚ
  market_value : ℚ
  currency : String
  trade_date : String
  settle_date : String
deriving DecidableEq, Repr

/-- A dataframe row as `reconcile_positions` sees it: a position plus the
`pos_key` column, which is absent (`none`) until the engine writes it
(lines 166-167). -/
structure Row where
  symbol : String
  account_id : String
  quantity : ℚ
  price : ℚ
  market_value : ℚ
  currency : String
  trade_date : String
  settle_date : String
  pos_key : Option String
deriving DecidableEq, Repr

/-- Forget the `pos_key` column of a row. -/
def Row.toPosition (r : Row) : Position :=
  ⟨r.symbol, r.account_id, r.quantity, r.price, r.market_value,
   r.currency, r.trade_date, r.settle_date⟩

/-- Write the `pos_key` column onto a row, as line 166/167 of the source
does on every dataframe row: `df['pos_key'] = df['symbol'] + '|' + df['account_id']`. -/
def Row.setPosKey (r : Row) : Row :=
  { r with pos_key := some (r.symbol ++ "|" ++ r.account_id) }

/-- Reset the `pos_key` column (used to compare all other columns). -/
def Row.erasePosKey (r : Row) : Row :=
  { r with pos_key := none }

/-- A break record without its `break_id` (the other nine entries of the
dicts appended in `reconcile_positions`).  `break_type` and `severity`
keep the enum members; the source stores their `.value` strings. -/
structure RawBreak where
  break_type : BreakType
  severity : Severity
  symbol : String
  account_id : String
  internal_value : ℚ
  pb_value : ℚ
  variance : ℚ
  variance_pct : ℚ
  details : String
deriving DecidableEq, Repr

/-- A full break record, `break_id` included. -/
structure Break where
  break_id : String
  break_type : BreakType
  severity : Severity
  symbol : String
  account_id : String
  internal_value : ℚ
  pb_value : ℚ
  variance : ℚ
  variance_pct : ℚ
  details : String
deriving DecidableEq, Repr

/-- Attach a `break_id` to a raw break. -/
def RawBreak.withId (id : String) (b : RawBreak) : Break :=
  ⟨id, b.break_type, b.severity, b.symbol, b.account_id, b.internal_value,
   b.pb_value, b.variance, b.variance_pct, b.details⟩

/-- Drop the `break_id` of a break. -/
def Break.stripId (b : Break) : RawBreak :=
  ⟨b.break_type, b.severity, b.symbol, b.account_id, b.internal_value,
   b.pb_value, b.variance, b.variance_pct, b.details⟩

/-- The position key of a break record, rebuilt from its copied
`symbol` and `account_id` fields. -/
def RawBreak.bkey (b : RawBreak) : String :=
  b.symbol ++ "|" ++ b.account_id

/-- Function `calculate_severity` (lines 140-152): break severity from dollar
variance and percentage variance, cascading thresholds on absolute
values. -/
def calculate_severity (variance : ℚ) (variance_pct : ℚ) : Severity :=
  let abs_var := |variance|
  let abs_pct := |variance_pct|
  if abs_var > 100000 ∨ abs_pct > 10 then Severity.CRITICAL
  else if abs_var > 50000 ∨ abs_pct > 5 then Severity.HIGH
  else if abs_var > 10000 ∨ abs_pct > 2 then Severity.MEDIUM
  else Severity.LOW

/-- Python 3 `round(x, 2)`: round half to even at two decimal places
(on the exact rational model of the source's floats). -/
def round2 (x : ℚ) : ℚ :=
  let y := x * 100
  let f : ℤ := ⌊y⌋
  let r := y - f
  let n : ℤ :=
    if r > 1/2 then f + 1
    else if r < 1/2 then f
    else if f % 2 = 0 then f else f + 1
  (n : ℚ) / 100

/-- Key `pos_key` of a position: `symbol + '|' + account_id` (lines 166-167). -/
def posKey (p : Position) : String :=
  p.symbol ++ "|" ++ p.account_id

/-- Model of `set(df['pos_key'])` (lines 169-170): the distinct keys of a snapshot,
in first-occurrence order (the model's deterministic stand-in for the
unspecified Python set iteration order). -/
def keyList (ps : List Position) : List String :=
  (ps.map posKey).dedup

/-- Model of `df[df['pos_key'] == key].iloc[0]`: the first row of the snapshot
carrying the key. -/
def findByKey (ps : List Position) (k : String) : Option Position :=
  ps.find? (fun p => posKey p == k)

/-- Keys `missing_in_pb = internal_keys - pb_keys` (line 173). -/
def srcOnlyKeys (internal pb : List Position) : List String :=
  (keyList internal).filter (fun k => !((keyList pb).contains k))

/-- Keys `missing_in_internal = pb_keys - internal_keys` (line 174). -/
def tgtOnlyKeys (internal pb : List Position) : List String :=
  (keyList pb).filter (fun k => !((keyList internal).contains k))

/-- Keys `common_keys = internal_keys & pb_keys` (line 207). -/
def commonKeys (internal pb : List Position) : List String :=
  (keyList internal).filter (fun k => (keyList pb).contains k)

/-- The dict appended for a position missing in the prime broker
(lines 178-189), minus the `break_id`. -/
def mkMissingTarget (pos : Position) : RawBreak :=
  { break_type := BreakType.MISSING_IN_TARGET
    severity := calculate_severity pos.market_value 100
    symbol := pos.symbol
    account_id := pos.account_id
    internal_value := pos.market_value
    pb_value := 0
    variance := pos.market_value
    variance_pct := 100
    details := "Position exists in Internal but not in Prime Broker" }

/-- The dict appended for a position missing in the internal system
(lines 193-204), minus the `break_id`. -/
def mkMissingSource (pos : Position) : RawBreak :=
  { break_type := BreakType.MISSING_IN_SOURCE
    severity := calculate_severity pos.market_value 100
    symbol := pos.symbol
    account_id := pos.account_id
    internal_value := 0
    pb_value := pos.market_value
    variance := -pos.market_value
    variance_pct := -100
    details := "Position exists in Prime Broker but not in Internal" }

/-- The `for key in missing_in_pb` loop (lines 176-189). -/
def missingTargetBreaks (internal pb : List Position) : List RawBreak :=
  (srcOnlyKeys internal pb).flatMap
    (fun k => ((findByKey internal k).map mkMissingTarget).toList)

/-- The `for key in missing_in_internal` loop (lines 191-204). -/
def missingSourceBreaks (internal pb : List Position) : List RawBreak :=
  (tgtOnlyKeys internal pb).flatMap
    (fun k => ((findByKey pb k).map mkMissingSource).toList)

/-- Quantity percentage variance with its zero-denominator guard
(lines 214-218). -/
def qtyVarPct (i p : Position) : ℚ :=
  let qty_var := i.quantity - p.quantity
  if i.quantity ≠ 0 then qty_var / i.quantity * 100 else 0

/-- Price percentage variance with its zero-denominator guard
(lines 236-240). -/
def priceVarPct (i p : Position) : ℚ :=
  let price_var := i.price - p.price
  if i.price ≠ 0 then price_var / i.price * 100 else 0

/-- Market-value percentage variance with its zero-denominator guard
(lines 258-262). -/
def mvVarPct (i p : Position) : ℚ :=
  let mv_var := i.market_value - p.market_value
  if i.market_value ≠ 0 then mv_var / i.market_value * 100 else 0

/-- Quantity check emission (lines 220-233), given the already-computed
percentage variance. -/
def qtyBreakList (i p : Position) (pct : ℚ) : List RawBreak :=
  let qty_var := i.quantity - p.quantity
  if |pct| > TOLERANCES.quantity_pct then
    [{ break_type := BreakType.QUANTITY_MISMATCH
       severity := calculate_severity (|qty_var * i.price|) pct
       symbol := i.symbol
       account_id := i.account_id
       internal_value := i.quantity
       pb_value := p.quantity
       variance := qty_var
       variance_pct := round2 pct
       details := "Quantity: Internal=" ++ toString i.quantity ++
         " vs PB=" ++ toString p.quantity }]
  else []

/-- Price check emission (lines 242-255), given the percentage variance. -/
def priceBreakList (i p : Position) (pct : ℚ) : List RawBreak :=
  let price_var := i.price - p.price
  if |pct| > TOLERANCES.price_pct then
    [{ break_type := BreakType.PRICE_MISMATCH
       severity := calculate_severity (|price_var * i.quantity|) pct
       symbol := i.symbol
       account_id := i.account_id
       internal_value := i.price
       pb_value := p.price
       variance := round2 price_var
       variance_pct := round2 pct
       details := "Price: Internal=" ++ toString i.price ++
         " vs PB=" ++ toString p.price }]
  else []

/-- Market-value check emission (lines 264-276), given the percentage
variance: conjunctive threshold with the $100 de-minimis floor, severity
from the signed variance. -/
def mvBreakList (i p : Position) (pct : ℚ) : List RawBreak :=
  let mv_var := i.market_value - p.market_value
  if |pct| > TOLERANCES.market_value_pct ∧ |mv_var| > TOLERANCES.min_threshold then
    [{ break_type := BreakType.MARKET_VALUE_MISMATCH
       severity := calculate_severity mv_var pct
       symbol := i.symbol
       account_id := i.account_id
       internal_value := i.market_value
       pb_value := p.market_value
       variance := round2 mv_var
       variance_pct := round2 pct
       details := "MV: Internal=" ++ toString i.market_value ++
         " vs PB=" ++ toString p.market_value }]
  else []

/-- The quantity check of one matched pair (lines 213-233). -/
def qtyCheck (i p : Position) : List RawBreak :=
  qtyBreakList i p (qtyVarPct i p)

/-- The price check of one matched pair (lines 235-255). -/
def priceCheck (i p : Position) : List RawBreak :=
  priceBreakList i p (priceVarPct i p)

/-- The market-value check of one matched pair (lines 257-276). -/
def mvCheck (i p : Position) : List RawBreak :=
  mvBreakList i p (mvVarPct i p)

/-- All three checks of one matched pair, in source order
quantity → price → market value. -/
def matchedChecks (i p : Position) : List RawBreak :=
  qtyCheck i p ++ priceCheck i p ++ mvCheck i p

/-- The body of the `for key in common_keys` loop (lines 209-276):
look up the first matching row on each side and run the three checks. -/
def matchPlainAt (internal pb : List Position) (k : String) : List RawBreak :=
  match findByKey internal k, findByKey pb k with
  | some i, some p => matchedChecks i p
  | _, _ => []

/-- The `for key in common_keys` loop (lines 209-276). -/
def matchedBreaks (internal pb : List Position) : List RawBreak :=
  (commonKeys internal pb).flatMap (matchPlainAt internal pb)

/-- All raw breaks of one run, in production order: missing-in-target,
then missing-in-source, then matched-pair checks. -/
def rawBreaks (internal pb : List Position) : List RawBreak :=
  missingTargetBreaks internal pb ++ missingSourceBreaks internal pb ++
    matchedBreaks internal pb

/-- Decimal digit characters. -/
def digitChar (d : ℕ) : Char :=
  match d with
  | 0 => '0' | 1 => '1' | 2 => '2' | 3 => '3' | 4 => '4'
  | 5 => '5' | 6 => '6' | 7 => '7' | 8 => '8' | _ => '9'

/-- Decimal digits, most significant first, with explicit fuel (the fuel
keeps the recursion structural so that concrete ids evaluate). -/
def natToDigitsAux : ℕ → ℕ → List Char
  | 0, _ => []
  | fuel + 1, n =>
    if n < 10 then [digitChar n]
    else natToDigitsAux fuel (n / 10) ++ [digitChar (n % 10)]

/-- Decimal digits of a natural number, most significant first. -/
def natToDigits (n : ℕ) : List Char :=
  natToDigitsAux (n + 1) n

/-- Python `f"{n:04d}"`: decimal rendering zero-padded to width 4. -/
def pad4 (n : ℕ) : String :=
  String.mk (List.replicate (4 - (natToDigits n).length) '0' ++ natToDigits n)

/-- Id format `f"BRK-{n:04d}"` (lines 179, 194, 223, 245, 266). -/
def mkBreakId (n : ℕ) : String :=
  "BRK-" ++ pad4 n

/-- Assign `break_id`s in production order: the break appended when the
list already holds `i` breaks gets id `BRK-{i+1:04d}`, exactly the
source's `f"BRK-{len(breaks)+1:04d}"`. -/
def assignIds (l : List RawBreak) : List Break :=
  l.enum.map (fun x => RawBreak.withId (mkBreakId (x.1 + 1)) x.2)

/-- Function `reconcile_positions` (lines 155-280): the returned break list. -/
def reconcile_positions (internal pb : List Position) : List Break :=
  assignIds (rawBreaks internal pb)

/-- Function `reconcile_positions` including its effect on the two input
dataframes: lines 166-167 write the `pos_key` column in place, so the
model returns the two post-call dataframes next to the break list. -/
def reconcile_positions_df (internal pb : List Row) :
    List Row × List Row × List Break :=
  (internal.map Row.setPosKey, pb.map Row.setPosKey,
   reconcile_positions (internal.map Row.toPosition) (pb.map Row.toPosition))

/-- Division that refuses a zero denominator, used to show the guarded
computations of the source never reach a division by zero. -/
def checkedDiv (a b : ℚ) : Option ℚ :=
  if b = 0 then none else some (a / b)

/-- Variant of `qtyVarPct` with every division checked. -/
def qtyVarPctC (i p : Position) : Option ℚ :=
  if i.quantity ≠ 0 then
    (checkedDiv (i.quantity - p.quantity) i.quantity).map (· * 100)
  else some 0

/-- Variant of `priceVarPct` with every division checked. -/
def priceVarPctC (i p : Position) : Option ℚ :=
  if i.price ≠ 0 then
    (checkedDiv (i.price - p.price) i.price).map (· * 100)
  else some 0

/-- Variant of `mvVarPct` with every division checked. -/
def mvVarPctC (i p : Position) : Option ℚ :=
  if i.market_value ≠ 0 then
    (checkedDiv (i.market_value - p.market_value) i.market_value).map (· * 100)
  else some 0

/-- The three checks of one matched pair with every division checked. -/
def matchedChecksC (i p : Position) : Option (List RawBreak) :=
  (qtyVarPctC i p).bind (fun qpct =>
    (priceVarPctC i p).bind (fun ppct =>
      (mvVarPctC i p).map (fun mpct =>
        qtyBreakList i p qpct ++ priceBreakList i p ppct ++
          mvBreakList i p mpct)))

/-- One common key with every division checked. -/
def matchCheckedAt (internal pb : List Position) (k : String) :
    Option (List RawBreak) :=
  match findByKey internal k, findByKey pb k with
  | some i, some p => matchedChecksC i p
  | _, _ => some []

/-- The common-key loop with every division checked. -/
def matchedBreaksC (internal pb : List Position) :
    List String → Option (List RawBreak)
  | [] => some []
  | k :: ks =>
    (matchCheckedAt internal pb k).bind (fun cur =>
      (matchedBreaksC internal pb ks).map (fun rest => cur ++ rest))

/-- Variant of `reconcile_positions` with every division checked: returns `none`
if any percentage computation would divide by zero. -/
def reconcile_positionsC (internal pb : List Position) :
    Option (List Break) :=
  (matchedBreaksC internal pb (commonKeys internal pb)).map (fun m =>
    assignIds (missingTargetBreaks internal pb ++
      missingSourceBreaks internal pb ++ m))


/-! ## Helper lemmas -/

theorem sevRank_le_three (s : Severity) : sevRank s ≤ 3 := by
  cases s <;> simp [sevRank]

theorem sevRank_ge_three_iff (v p : ℚ) :
    3 ≤ sevRank (calculate_severity v p) ↔ (|v| > 100000 ∨ |p| > 10) := by
  simp only [calculate_severity]
  split_ifs with h1 h2 h3 <;> simp [sevRank, h1]

theorem sevRank_ge_two_iff (v p : ℚ) :
    2 ≤ sevRank (calculate_severity v p) ↔ (|v| > 50000 ∨ |p| > 5) := by
  simp only [calculate_severity]
  split_ifs with h1 h2 h3
  · refine iff_of_true (by decide) ?_
    rcases h1 with h | h
    · exact Or.inl (by linarith)
    · exact Or.inr (by linarith)
  · exact iff_of_true (by decide) h2
  · exact iff_of_false (by decide) h2
  · exact iff_of_false (by decide) h2

theorem sevRank_ge_one_iff (v p : ℚ) :
    1 ≤ sevRank (calculate_severity v p) ↔ (|v| > 10000 ∨ |p| > 2) := by
  simp only [calculate_severity]
  split_ifs with h1 h2 h3
  · refine iff_of_true (by decide) ?_
    rcases h1 with h | h
    · exact Or.inl (by linarith)
    · exact Or.inr (by linarith)
  · refine iff_of_true (by decide) ?_
    rcases h2 with h | h
    · exact Or.inl (by linarith)
    · exact Or.inr (by linarith)
  · exact iff_of_true (by decide) h3
  · exact iff_of_false (by decide) h3

/-! ## Claims -/

/-- C1: `calculate_severity` is a pure total function of
`(variance, variance_pct)`: it returns CRITICAL when `abs(variance) > 100000`
or `abs(variance_pct) > 10`; otherwise HIGH when `abs(variance) > 50000` or
`abs(variance_pct) > 5`; otherwise MEDIUM when `abs(variance) > 10000` or
`abs(variance_pct) > 2`; otherwise LOW.  Tiers are checked top-down on
absolute values, a single disjunct suffices at a tier, and being a total
Lean function over all of `ℚ × ℚ` it never raises. -/
theorem c1_severity_classifier (v p : ℚ) :
    ((|v| > 100000 ∨ |p| > 10) → calculate_severity v p = Severity.CRITICAL)
  ∧ (|v| ≤ 100000 → |p| ≤ 10 → (|v| > 50000 ∨ |p| > 5) →
      calculate_severity v p = Severity.HIGH)
  ∧ (|v| ≤ 100000 → |p| ≤ 10 → |v| ≤ 50000 → |p| ≤ 5 → (|v| > 10000 ∨ |p| > 2) →
      calculate_severity v p = Severity.MEDIUM)
  ∧ (|v| ≤ 10000 → |p| ≤ 2 → calculate_severity v p = Severity.LOW) := by
  unfold calculate_severity
  refine ⟨fun h => ?_, fun h1 h2 h3 => ?_, fun h1 h2 h3 h4 h5 => ?_, fun h1 h2 => ?_⟩
  · rw [if_pos h]
  · rw [if_neg (by simp only [not_or, not_lt]; exact ⟨h1, h2⟩), if_pos h3]
  · rw [if_neg (by simp only [not_or, not_lt]; exact ⟨h1, h2⟩),
      if_neg (by simp only [not_or, not_lt]; exact ⟨h3, h4⟩), if_pos h5]
  · rw [if_neg (by simp only [not_or, not_lt]; constructor <;> linarith),
      if_neg (by simp only [not_or, not_lt]; constructor <;> linarith),
      if_neg (by simp only [not_or, not_lt]; exact ⟨h1, h2⟩)]

/-- Witness for C1: one concrete input per tier. -/
theorem c1_severity_classifier_witness :
    calculate_severity 0 11 = Severity.CRITICAL
  ∧ calculate_severity 60000 0 = Severity.HIGH
  ∧ calculate_severity 20000 0 = Severity.MEDIUM
  ∧ calculate_severity 5 1 = Severity.LOW :=
  ⟨(c1_severity_classifier 0 11).1 (Or.inr (by norm_num)),
   (c1_severity_classifier 60000 0).2.1 (by norm_num) (by norm_num)
     (Or.inl (by norm_num)),
   (c1_severity_classifier 20000 0).2.2.1 (by norm_num) (by norm_num)
     (by norm_num) (by norm_num) (Or.inl (by norm_num)),
   (c1_severity_classifier 5 1).2.2.2 (by norm_num) (by norm_num)⟩

/-- C6: the severity classification is monotonic: increasing the absolute
dollar variance with the percentage fixed, or the absolute percentage with
the dollar variance fixed, never lowers the tier
(CRITICAL > HIGH > MEDIUM > LOW, encoded by `sevRank`). -/
theorem c6_severity_monotone (v v' p p' : ℚ) :
    (|v| ≤ |v'| →
      sevRank (calculate_severity v p) ≤ sevRank (calculate_severity v' p))
  ∧ (|p| ≤ |p'| →
      sevRank (calculate_severity v p) ≤ sevRank (calculate_severity v p')) := by
  constructor
  · intro h
    have h3 : 3 ≤ sevRank (calculate_severity v p) →
        3 ≤ sevRank (calculate_severity v' p) := by
      rw [sevRank_ge_three_iff, sevRank_ge_three_iff]
      rintro (hh | hh)
      · exact Or.inl (by linarith)
      · exact Or.inr hh
    have h2 : 2 ≤ sevRank (calculate_severity v p) →
        2 ≤ sevRank (calculate_severity v' p) := by
      rw [sevRank_ge_two_iff, sevRank_ge_two_iff]
      rintro (hh | hh)
      · exact Or.inl (by linarith)
      · exact Or.inr hh
    have h1 : 1 ≤ sevRank (calculate_severity v p) →
        1 ≤ sevRank (calculate_severity v' p) := by
      rw [sevRank_ge_one_iff, sevRank_ge_one_iff]
      rintro (hh | hh)
      · exact Or.inl (by linarith)
      · exact Or.inr hh
    have hb := sevRank_le_three (calculate_severity v p)
    omega
  · intro h
    have h3 : 3 ≤ sevRank (calculate_severity v p) →
        3 ≤ sevRank (calculate_severity v p') := by
      rw [sevRank_ge_three_iff, sevRank_ge_three_iff]
      rintro (hh | hh)
      · exact Or.inl hh
      · exact Or.inr (by linarith)
    have h2 : 2 ≤ sevRank (calculate_severity v p) →
        2 ≤ sevRank (calculate_severity v p') := by
      rw [sevRank_ge_two_iff, sevRank_ge_two_iff]
      rintro (hh | hh)
      · exact Or.inl hh
      · exact Or.inr (by linarith)
    have h1 : 1 ≤ sevRank (calculate_severity v p) →
        1 ≤ sevRank (calculate_severity v p') := by
      rw [sevRank_ge_one_iff, sevRank_ge_one_iff]
      rintro (hh | hh)
      · exact Or.inl hh
      · exact Or.inr (by linarith)
    have hb := sevRank_le_three (calculate_severity v p)
    omega

/-- Witness for C6: growing the dollar variance from 5 to 200000 with the
percentage fixed does not lower the tier. -/
theorem c6_severity_monotone_witness :
    sevRank (calculate_severity 5 0) ≤ sevRank (calculate_severity 200000 0) :=
  (c6_severity_monotone 5 200000 0 0).1 (by norm_num)

/-- C10: when the source-side field of a matched pair is zero, the
zero-denominator guard pins the percentage variance to 0, which never
exceeds the positive tolerance, so the corresponding check emits nothing
regardless of the target-side value. -/
theorem c10_zero_source_field_no_break (s t : Position) :
    qtyCheck { s with quantity := 0 } t = []
  ∧ priceCheck { s with price := 0 } t = []
  ∧ mvCheck { s with market_value := 0 } t = [] := by
  refine ⟨?_, ?_, ?_⟩ <;>
    norm_num [qtyCheck, priceCheck, mvCheck, qtyVarPct, priceVarPct, mvVarPct,
      qtyBreakList, priceBreakList, mvBreakList, TOLERANCES]

/-- C3: for a matched pair the market-value check emits a break exactly when
both the percentage threshold (2%) and the $100 de-minimis dollar floor are
exceeded; within the three per-pair checks only the market-value check can
produce a Market Value Mismatch break; and no market-value break is ever
emitted when the absolute dollar variance is at most 100, whatever the
percentage. -/
theorem c3_mv_break_conjunctive (i p : Position) :
    (mvCheck i p ≠ [] ↔
      (|mvVarPct i p| > 2 ∧ |i.market_value - p.market_value| > 100))
  ∧ ((matchedChecks i p).filter
      (fun b => b.break_type == BreakType.MARKET_VALUE_MISMATCH) = mvCheck i p)
  ∧ (|i.market_value - p.market_value| ≤ 100 → mvCheck i p = []) := by
  refine ⟨?_, ?_, ?_⟩
  · simp only [mvCheck, mvBreakList]
    split_ifs with h
    · simp only [ne_eq, List.cons_ne_nil, not_false_eq_true, true_iff]
      simpa [TOLERANCES] using h
    · simp only [ne_eq, not_true_eq_false, false_iff]
      simpa [TOLERANCES] using h
  · have hq : (qtyCheck i p).filter
        (fun b => b.break_type == BreakType.MARKET_VALUE_MISMATCH) = [] := by
      simp only [qtyCheck, qtyBreakList]
      split_ifs <;> simp
    have hpr : (priceCheck i p).filter
        (fun b => b.break_type == BreakType.MARKET_VALUE_MISMATCH) = [] := by
      simp only [priceCheck, priceBreakList]
      split_ifs <;> simp
    have hmv : (mvCheck i p).filter
        (fun b => b.break_type == BreakType.MARKET_VALUE_MISMATCH) = mvCheck i p := by
      simp only [mvCheck, mvBreakList]
      split_ifs <;> simp
    simp [matchedChecks, List.filter_append, hq, hpr, hmv]
  · intro h
    simp only [mvCheck, mvBreakList]
    rw [if_neg]
    rintro ⟨-, hc⟩
    simp only [TOLERANCES] at hc
    linarith

/-- Witness for C3: market value 1000 vs 950 is a 5% variance but only a
$50 one, below the de-minimis floor, so no market-value break. -/
theorem c3_mv_break_conjunctive_witness :
    mvCheck ⟨"A", "X", 1, 1000, 1000, "USD", "d", "d"⟩
      ⟨"A", "X", 1, 950, 950, "USD", "d", "d"⟩ = [] :=
  (c3_mv_break_conjunctive ⟨"A", "X", 1, 1000, 1000, "USD", "d", "d"⟩
    ⟨"A", "X", 1, 950, 950, "USD", "d", "d"⟩).2.2 (by norm_num)

/-- Decoder for the digit list of a break id: decimal value of the digits. -/
def decodeDigits (l : List Char) : ℕ :=
  l.foldl (fun a c => 10 * a + (c.toNat - 48)) 0

/-- Decoder for a break id: decimal value of what follows `"BRK-"`. -/
def decodeId (s : String) : ℕ :=
  decodeDigits (s.data.drop 4)

theorem digitChar_toNat (d : ℕ) (h : d < 10) : (digitChar d).toNat = 48 + d := by
  interval_cases d <;> rfl

theorem natToDigitsAux_foldl (fuel : ℕ) :
    ∀ n, n < fuel → ∀ a : ℕ,
      (natToDigitsAux fuel n).foldl (fun a c => 10 * a + (c.toNat - 48)) a
        = a * 10 ^ (natToDigitsAux fuel n).length + n := by
  induction fuel with
  | zero => intro n h; omega
  | succ fuel ih =>
    intro n h a
    by_cases h10 : n < 10
    · simp [natToDigitsAux, h10, digitChar_toNat n h10]
      omega
    · have hd : n / 10 < fuel :=
        lt_of_lt_of_le (Nat.div_lt_self (by omega) (by omega)) (by omega)
      simp only [natToDigitsAux, if_neg h10, List.foldl_append, List.length_append,
        List.foldl_cons, List.foldl_nil, List.length_cons, List.length_nil]
      rw [ih (n / 10) hd a]
      rw [digitChar_toNat (n % 10) (Nat.mod_lt _ (by omega))]
      have hdm := Nat.div_add_mod n 10
      rw [pow_succ]
      generalize (10 : ℕ) ^ (natToDigitsAux fuel (n / 10)).length = D
      rw [show a * (D * 10) = 10 * (a * D) by ring]
      omega

theorem decodeDigits_natToDigits (n : ℕ) : decodeDigits (natToDigits n) = n := by
  have h := natToDigitsAux_foldl (n + 1) n (Nat.lt_succ_self n) 0
  simpa [decodeDigits, natToDigits] using h

theorem decodeDigits_replicate_zero (m : ℕ) (l : List Char) :
    decodeDigits (List.replicate m '0' ++ l) = decodeDigits l := by
  induction m with
  | zero => simp
  | succ m ih => simpa [List.replicate_succ, decodeDigits] using ih

theorem decodeId_mkBreakId (n : ℕ) : decodeId (mkBreakId n) = n := by
  have hdata : (mkBreakId n).data
      = 'B' :: 'R' :: 'K' :: '-' :: (List.replicate (4 - (natToDigits n).length) '0'
          ++ natToDigits n) := rfl
  rw [decodeId, hdata]
  simpa [List.drop, decodeDigits_replicate_zero] using decodeDigits_natToDigits n

theorem mkBreakId_injective : Function.Injective mkBreakId := by
  intro a b h
  have := congrArg decodeId h
  simpa [decodeId_mkBreakId] using this

theorem map_stripId_assignIds (l : List RawBreak) :
    (assignIds l).map Break.stripId = l := by
  unfold assignIds
  rw [List.map_map]
  have h : (Break.stripId ∘ fun x : ℕ × RawBreak =>
      RawBreak.withId (mkBreakId (x.1 + 1)) x.2) = Prod.snd := rfl
  rw [h, List.enum_map_snd]

theorem map_break_id_assignIds (l : List RawBreak) :
    (assignIds l).map Break.break_id
      = (List.range l.length).map (fun i => mkBreakId (i + 1)) := by
  unfold assignIds
  rw [List.map_map]
  have h : (Break.break_id ∘ fun x : ℕ × RawBreak =>
      RawBreak.withId (mkBreakId (x.1 + 1)) x.2)
      = (fun i => mkBreakId (i + 1)) ∘ Prod.fst := rfl
  rw [h, ← List.map_map, List.enum_map_fst]

theorem length_assignIds (l : List RawBreak) :
    (assignIds l).length = l.length := by
  simp [assignIds]

/-- C5: in one run's output the `break_id`s are assigned in production
order as `BRK-####` (zero-padded 4-digit decimal counter, `mkBreakId`),
sequentially from 1 with no gaps — the i-th break carries id
`mkBreakId (i+1)` — and they are pairwise distinct. -/
theorem c5_break_ids_sequential (internal pb : List Position) :
    (reconcile_positions internal pb).map Break.break_id
      = (List.range (reconcile_positions internal pb).length).map
          (fun i => mkBreakId (i + 1))
  ∧ ((reconcile_positions internal pb).map Break.break_id).Nodup := by
  constructor
  · unfold reconcile_positions
    rw [map_break_id_assignIds, length_assignIds]
  · unfold reconcile_positions
    rw [map_break_id_assignIds]
    refine List.Nodup.map ?_ (List.nodup_range _)
    intro a b hab
    exact Nat.succ_injective (mkBreakId_injective hab)

theorem findByKey_posKey {ps : List Position} {k : String} {pos : Position}
    (h : findByKey ps k = some pos) : posKey pos = k := by
  have h2 : ps.find? (fun q => posKey q == k) = some pos := h
  have h3 := List.find?_some h2
  exact eq_of_beq h3

theorem keyList_nodup (ps : List Position) : (keyList ps).Nodup :=
  List.nodup_dedup _

theorem srcOnlyKeys_nodup (internal pb : List Position) :
    (srcOnlyKeys internal pb).Nodup :=
  (keyList_nodup internal).filter _

theorem tgtOnlyKeys_nodup (internal pb : List Position) :
    (tgtOnlyKeys internal pb).Nodup :=
  (keyList_nodup pb).filter _

theorem commonKeys_nodup (internal pb : List Position) :
    (commonKeys internal pb).Nodup :=
  (keyList_nodup internal).filter _

theorem mem_srcOnlyKeys {internal pb : List Position} {k : String} :
    k ∈ srcOnlyKeys internal pb ↔ k ∈ keyList internal ∧ k ∉ keyList pb := by
  simp [srcOnlyKeys]

theorem mem_tgtOnlyKeys {internal pb : List Position} {k : String} :
    k ∈ tgtOnlyKeys internal pb ↔ k ∈ keyList pb ∧ k ∉ keyList internal := by
  simp [tgtOnlyKeys]

theorem mem_commonKeys {internal pb : List Position} {k : String} :
    k ∈ commonKeys internal pb ↔ k ∈ keyList internal ∧ k ∈ keyList pb := by
  simp [commonKeys]

theorem flatMap_filter_key_of_not_mem (f : String → List RawBreak)
    (hf : ∀ k' b, b ∈ f k' → b.bkey = k') (k : String) :
    ∀ ks : List String, k ∉ ks →
      (ks.flatMap f).filter (fun b => b.bkey == k) = [] := by
  intro ks
  induction ks with
  | nil => intro _; rfl
  | cons a t ih =>
    intro hk
    rw [List.flatMap_cons, List.filter_append]
    have hak : a ≠ k := fun h => hk (h ▸ List.mem_cons_self a t)
    have h1 : (f a).filter (fun b => b.bkey == k) = [] := by
      apply List.filter_eq_nil_iff.mpr
      intro b hb
      simp [hf a b hb]
      exact hak
    rw [h1, ih (fun hkt => hk (List.mem_cons_of_mem a hkt))]
    rfl

theorem flatMap_filter_key_of_mem (f : String → List RawBreak)
    (hf : ∀ k' b, b ∈ f k' → b.bkey = k') (k : String) :
    ∀ ks : List String, ks.Nodup → k ∈ ks →
      (ks.flatMap f).filter (fun b => b.bkey == k) = f k := by
  intro ks
  induction ks with
  | nil => intro _ hk; cases hk
  | cons a t ih =>
    intro hnd hk
    rw [List.flatMap_cons, List.filter_append]
    rcases List.mem_cons.mp hk with rfl | hkt
    · have h1 : (f k).filter (fun b => b.bkey == k) = f k := by
        apply List.filter_eq_self.mpr
        intro b hb
        simp [hf k b hb]
      have hknt : k ∉ t := (List.nodup_cons.mp hnd).1
      rw [h1, flatMap_filter_key_of_not_mem f hf k t hknt, List.append_nil]
    · have hak : a ≠ k := by
        rintro rfl
        exact (List.nodup_cons.mp hnd).1 hkt
      have h1 : (f a).filter (fun b => b.bkey == k) = [] := by
        apply List.filter_eq_nil_iff.mpr
        intro b hb
        simp [hf a b hb]
        exact hak
      rw [h1, List.nil_append]
      exact ih (List.nodup_cons.mp hnd).2 hkt

theorem hf_missingTarget (internal : List Position) :
    ∀ k b, b ∈ ((findByKey internal k).map mkMissingTarget).toList →
      b.bkey = k := by
  intro k b hb
  cases h : findByKey internal k with
  | none => simp [h] at hb
  | some pos =>
    simp [h] at hb
    subst hb
    simpa [RawBreak.bkey, mkMissingTarget, posKey] using findByKey_posKey h

theorem hf_missingSource (pb : List Position) :
    ∀ k b, b ∈ ((findByKey pb k).map mkMissingSource).toList →
      b.bkey = k := by
  intro k b hb
  cases h : findByKey pb k with
  | none => simp [h] at hb
  | some pos =>
    simp [h] at hb
    subst hb
    simpa [RawBreak.bkey, mkMissingSource, posKey] using findByKey_posKey h

theorem matchedChecks_bkey {i p : Position} {b : RawBreak}
    (hb : b ∈ matchedChecks i p) : b.bkey = posKey i := by
  simp only [matchedChecks, List.mem_append] at hb
  rcases hb with (hb | hb) | hb
  · simp only [qtyCheck, qtyBreakList] at hb
    split at hb
    · rcases List.mem_singleton.mp hb with rfl
      rfl
    · cases hb
  · simp only [priceCheck, priceBreakList] at hb
    split at hb
    · rcases List.mem_singleton.mp hb with rfl
      rfl
    · cases hb
  · simp only [mvCheck, mvBreakList] at hb
    split at hb
    · rcases List.mem_singleton.mp hb with rfl
      rfl
    · cases hb

theorem hf_matched (internal pb : List Position) :
    ∀ k b, b ∈ matchPlainAt internal pb k → b.bkey = k := by
  intro k b hb
  unfold matchPlainAt at hb
  cases h1 : findByKey internal k with
  | none =>
    rw [h1] at hb
    cases h2 : findByKey pb k <;> rw [h2] at hb <;> cases hb
  | some i =>
    cases h2 : findByKey pb k with
    | none =>
      rw [h1, h2] at hb
      cases hb
    | some p =>
      rw [h1, h2] at hb
      have hmem : b ∈ matchedChecks i p := hb
      rw [matchedChecks_bkey hmem, findByKey_posKey h1]

theorem map_stripId_reconcile (internal pb : List Position) :
    (reconcile_positions internal pb).map Break.stripId = rawBreaks internal pb := by
  unfold reconcile_positions
  exact map_stripId_assignIds _

theorem matchedChecks_eq_nil {i p : Position} (hq : i.quantity = p.quantity)
    (hp : i.price = p.price) (hm : i.market_value = p.market_value) :
    matchedChecks i p = [] := by
  norm_num [matchedChecks, qtyCheck, priceCheck, mvCheck, qtyVarPct, priceVarPct,
    mvVarPct, qtyBreakList, priceBreakList, mvBreakList, TOLERANCES, hq, hp, hm]

/-- C2: a key present only in the source snapshot yields exactly one break
for that key in the run's output — a Missing in Target break whose source
value is the position's market value, target value 0, variance the market
value and variance_pct the fixed 100.0 — and symmetrically a target-only
key yields exactly one Missing in Source break with source value 0,
variance minus the market value and variance_pct -100.0.  In both cases
severity is the classifier applied with percentage input 100, which always
classifies CRITICAL whatever the dollar size. -/
theorem c2_missing_position_breaks (internal pb : List Position) :
    (∀ k pos, k ∈ keyList internal → k ∉ keyList pb →
      findByKey internal k = some pos →
      ((reconcile_positions internal pb).map Break.stripId).filter
          (fun b => b.bkey == k)
        = [{ break_type := BreakType.MISSING_IN_TARGET
             severity := calculate_severity pos.market_value 100
             symbol := pos.symbol
             account_id := pos.account_id
             internal_value := pos.market_value
             pb_value := 0
             variance := pos.market_value
             variance_pct := 100
             details := "Position exists in Internal but not in Prime Broker" }])
  ∧ (∀ k pos, k ∈ keyList pb → k ∉ keyList internal →
      findByKey pb k = some pos →
      ((reconcile_positions internal pb).map Break.stripId).filter
          (fun b => b.bkey == k)
        = [{ break_type := BreakType.MISSING_IN_SOURCE
             severity := calculate_severity pos.market_value 100
             symbol := pos.symbol
             account_id := pos.account_id
             internal_value := 0
             pb_value := pos.market_value
             variance := -pos.market_value
             variance_pct := -100
             details := "Position exists in Prime Broker but not in Internal" }])
  ∧ (∀ v : ℚ, calculate_severity v 100 = Severity.CRITICAL) := by
  refine ⟨?_, ?_, ?_⟩
  · intro k pos hk1 hk2 hfind
    rw [map_stripId_reconcile]
    unfold rawBreaks
    rw [List.filter_append, List.filter_append]
    have e1 : (missingTargetBreaks internal pb).filter (fun b => b.bkey == k)
        = [mkMissingTarget pos] := by
      unfold missingTargetBreaks
      rw [flatMap_filter_key_of_mem _ (hf_missingTarget internal) k _
        (srcOnlyKeys_nodup internal pb) (mem_srcOnlyKeys.mpr ⟨hk1, hk2⟩)]
      simp [hfind]
    have e2 : (missingSourceBreaks internal pb).filter (fun b => b.bkey == k)
        = [] := by
      unfold missingSourceBreaks
      exact flatMap_filter_key_of_not_mem _ (hf_missingSource pb) k _
        (fun hmem => hk2 (mem_tgtOnlyKeys.mp hmem).1)
    have e3 : (matchedBreaks internal pb).filter (fun b => b.bkey == k)
        = [] := by
      unfold matchedBreaks
      exact flatMap_filter_key_of_not_mem _ (hf_matched internal pb) k _
        (fun hmem => hk2 (mem_commonKeys.mp hmem).2)
    rw [e1, e2, e3]
    simp [mkMissingTarget]
  · intro k pos hk1 hk2 hfind
    rw [map_stripId_reconcile]
    unfold rawBreaks
    rw [List.filter_append, List.filter_append]
    have e1 : (missingTargetBreaks internal pb).filter (fun b => b.bkey == k)
        = [] := by
      unfold missingTargetBreaks
      exact flatMap_filter_key_of_not_mem _ (hf_missingTarget internal) k _
        (fun hmem => hk2 (mem_srcOnlyKeys.mp hmem).1)
    have e2 : (missingSourceBreaks internal pb).filter (fun b => b.bkey == k)
        = [mkMissingSource pos] := by
      unfold missingSourceBreaks
      rw [flatMap_filter_key_of_mem _ (hf_missingSource pb) k _
        (tgtOnlyKeys_nodup internal pb) (mem_tgtOnlyKeys.mpr ⟨hk1, hk2⟩)]
      simp [hfind]
    have e3 : (matchedBreaks internal pb).filter (fun b => b.bkey == k)
        = [] := by
      unfold matchedBreaks
      exact flatMap_filter_key_of_not_mem _ (hf_matched internal pb) k _
        (fun hmem => hk2 (mem_commonKeys.mp hmem).1)
    rw [e1, e2, e3]
    simp [mkMissingSource]
  · intro v
    simp only [calculate_severity]
    rw [if_pos (Or.inr (by norm_num))]

/-- Witness for C2: the NFLX position of the sample data, present only in
one snapshot, produces exactly one CRITICAL Missing in Target break. -/
theorem c2_missing_position_breaks_witness :
    ((reconcile_positions
        [⟨"NFLX", "HEDGE_FUND_01", 2500, 625, 1562500, "USD", "d1", "d2"⟩]
        []).map Break.stripId).filter (fun b => b.bkey == "NFLX|HEDGE_FUND_01")
      = [⟨BreakType.MISSING_IN_TARGET, Severity.CRITICAL, "NFLX",
          "HEDGE_FUND_01", 1562500, 0, 1562500, 100,
          "Position exists in Internal but not in Prime Broker"⟩] := by
  have h := (c2_missing_position_breaks
      [⟨"NFLX", "HEDGE_FUND_01", 2500, 625, 1562500, "USD", "d1", "d2"⟩] []).1
    "NFLX|HEDGE_FUND_01"
    ⟨"NFLX", "HEDGE_FUND_01", 2500, 625, 1562500, "USD", "d1", "d2"⟩
    (by decide) (by decide) (by decide)
  exact h.trans (by decide)

/-- C4: a key present in both snapshots whose first matching rows agree on
quantity, price and market value contributes no break to the output, and
reconciling a snapshot against itself yields the empty break list. -/
theorem c4_identical_positions_no_break (internal pb : List Position) :
    (∀ k i p, k ∈ keyList internal → k ∈ keyList pb →
      findByKey internal k = some i → findByKey pb k = some p →
      i.quantity = p.quantity → i.price = p.price →
      i.market_value = p.market_value →
      (reconcile_positions internal pb).filter
        (fun b => b.symbol ++ "|" ++ b.account_id == k) = [])
  ∧ reconcile_positions internal internal = [] := by
  constructor
  · intro k i p hk1 hk2 hfi hfp hq hp hm
    have hraw : (rawBreaks internal pb).filter (fun b => b.bkey == k) = [] := by
      unfold rawBreaks
      rw [List.filter_append, List.filter_append]
      have e1 : (missingTargetBreaks internal pb).filter (fun b => b.bkey == k)
          = [] := by
        unfold missingTargetBreaks
        exact flatMap_filter_key_of_not_mem _ (hf_missingTarget internal) k _
          (fun hmem => (mem_srcOnlyKeys.mp hmem).2 hk2)
      have e2 : (missingSourceBreaks internal pb).filter (fun b => b.bkey == k)
          = [] := by
        unfold missingSourceBreaks
        exact flatMap_filter_key_of_not_mem _ (hf_missingSource pb) k _
          (fun hmem => (mem_tgtOnlyKeys.mp hmem).2 hk1)
      have e3 : (matchedBreaks internal pb).filter (fun b => b.bkey == k)
          = [] := by
        unfold matchedBreaks
        rw [flatMap_filter_key_of_mem _ (hf_matched internal pb) k _
          (commonKeys_nodup internal pb) (mem_commonKeys.mpr ⟨hk1, hk2⟩)]
        unfold matchPlainAt
        rw [hfi, hfp]
        exact matchedChecks_eq_nil hq hp hm
      rw [e1, e2, e3]
      rfl
    apply List.filter_eq_nil_iff.mpr
    intro b hb
    have hmem : b.stripId ∈ rawBreaks internal pb := by
      rw [← map_stripId_reconcile internal pb]
      exact List.mem_map_of_mem _ hb
    exact List.filter_eq_nil_iff.mp hraw b.stripId hmem
  · have h1 : srcOnlyKeys internal internal = [] := by
      apply List.filter_eq_nil_iff.mpr
      intro k hk
      simp [hk]
    have h2 : tgtOnlyKeys internal internal = [] := by
      apply List.filter_eq_nil_iff.mpr
      intro k hk
      simp [hk]
    have h3 : matchedBreaks internal internal = [] := by
      unfold matchedBreaks
      apply List.flatMap_eq_nil_iff.mpr
      intro k hk
      unfold matchPlainAt
      cases h : findByKey internal k with
      | none => rfl
      | some i => exact matchedChecks_eq_nil rfl rfl rfl
    simp [reconcile_positions, rawBreaks, missingTargetBreaks,
      missingSourceBreaks, h1, h2, h3, assignIds]

/-- Witness for C4: running one concrete snapshot against itself leaves no
break for its single key. -/
theorem c4_identical_positions_no_break_witness :
    (reconcile_positions
        [⟨"AAPL", "HEDGE_FUND_01", 12000, 178 + 1/2, 2142000, "USD", "d1", "d2"⟩]
        [⟨"AAPL", "HEDGE_FUND_01", 12000, 178 + 1/2, 2142000, "USD", "d1", "d2"⟩]).filter
      (fun b => b.symbol ++ "|" ++ b.account_id == "AAPL|HEDGE_FUND_01") = [] :=
  (c4_identical_positions_no_break
      [⟨"AAPL", "HEDGE_FUND_01", 12000, 178 + 1/2, 2142000, "USD", "d1", "d2"⟩]
      [⟨"AAPL", "HEDGE_FUND_01", 12000, 178 + 1/2, 2142000, "USD", "d1", "d2"⟩]).1
    "AAPL|HEDGE_FUND_01"
    ⟨"AAPL", "HEDGE_FUND_01", 12000, 178 + 1/2, 2142000, "USD", "d1", "d2"⟩
    ⟨"AAPL", "HEDGE_FUND_01", 12000, 178 + 1/2, 2142000, "USD", "d1", "d2"⟩
    (by decide) (by decide) (by decide) (by decide) rfl rfl rfl

theorem qtyVarPctC_eq (i p : Position) :
    qtyVarPctC i p = some (qtyVarPct i p) := by
  unfold qtyVarPctC qtyVarPct checkedDiv
  by_cases h : i.quantity = 0 <;> simp [h]

theorem priceVarPctC_eq (i p : Position) :
    priceVarPctC i p = some (priceVarPct i p) := by
  unfold priceVarPctC priceVarPct checkedDiv
  by_cases h : i.price = 0 <;> simp [h]

theorem mvVarPctC_eq (i p : Position) :
    mvVarPctC i p = some (mvVarPct i p) := by
  unfold mvVarPctC mvVarPct checkedDiv
  by_cases h : i.market_value = 0 <;> simp [h]

theorem matchedChecksC_eq (i p : Position) :
    matchedChecksC i p = some (matchedChecks i p) := by
  simp [matchedChecksC, qtyVarPctC_eq, priceVarPctC_eq, mvVarPctC_eq,
    matchedChecks, qtyCheck, priceCheck, mvCheck]

theorem matchCheckedAt_eq (internal pb : List Position) (k : String) :
    matchCheckedAt internal pb k = some (matchPlainAt internal pb k) := by
  unfold matchCheckedAt matchPlainAt
  cases h1 : findByKey internal k <;> cases h2 : findByKey pb k <;>
    simp [matchedChecksC_eq]

theorem matchedBreaksC_eq (internal pb : List Position) (ks : List String) :
    matchedBreaksC internal pb ks
      = some (ks.flatMap (matchPlainAt internal pb)) := by
  induction ks with
  | nil => rfl
  | cons k t ih => simp [matchedBreaksC, matchCheckedAt_eq, ih]

/-- C7: every percentage computation of the engine guards its denominator:
with a zero source-side quantity, price or market value the percentage
short-circuits to the fixed 0; and the fully division-checked engine
`reconcile_positionsC`, which returns `none` as soon as any division by
zero would occur, always succeeds and agrees with `reconcile_positions` —
the division-by-zero branch is unreachable on every input. -/
theorem c7_division_guard (internal pb : List Position) :
    reconcile_positionsC internal pb = some (reconcile_positions internal pb)
  ∧ (∀ s t : Position,
      qtyVarPct { s with quantity := 0 } t = 0
    ∧ priceVarPct { s with price := 0 } t = 0
    ∧ mvVarPct { s with market_value := 0 } t = 0) := by
  constructor
  · simp [reconcile_positionsC, matchedBreaksC_eq, reconcile_positions,
      rawBreaks, matchedBreaks]
  · intro s t
    refine ⟨?_, ?_, ?_⟩ <;> simp [qtyVarPct, priceVarPct, mvVarPct]

/-- C8 evidence: on a snapshot holding the duplicate key `AAPL|HEDGE_FUND_01`
twice with conflicting quantities, `reconcile_positions` does not fail: it
silently reconciles the first duplicate row (which matches the target) and
returns the empty break list, hiding the conflicting second row. -/
theorem c8_duplicate_keys_not_rejected :
    reconcile_positions
      [⟨"AAPL", "HEDGE_FUND_01", 100, 10, 1000, "USD", "d1", "d2"⟩,
       ⟨"AAPL", "HEDGE_FUND_01", 999, 10, 9990, "USD", "d1", "d2"⟩]
      [⟨"AAPL", "HEDGE_FUND_01", 100, 10, 1000, "USD", "d1", "d2"⟩] = [] := by
  decide

/-- C9 counterexample: the input collections are not left unchanged — the
run writes the `pos_key` column onto the caller's rows (source lines
166-167), so the source dataframe after the call differs from the one
passed in. -/
theorem c9_inputs_mutated_counterexample :
    (reconcile_positions_df
        [⟨"AAPL", "HEDGE_FUND_01", 100, 10, 1000, "USD", "d1", "d2", none⟩]
        []).1
      ≠ [⟨"AAPL", "HEDGE_FUND_01", 100, 10, 1000, "USD", "d1", "d2", none⟩] := by
  decide

/-- C9 amended: the run keeps every row and every field of both input
collections unchanged except the `pos_key` column, which it writes (adds
or overwrites) on every row as `symbol ++ "|" ++ account_id`; the break
list is computed from the keyed rows. -/
theorem c9_inputs_readonly_except_pos_key (internal pb : List Row) :
    ((reconcile_positions_df internal pb).1).map Row.erasePosKey
      = internal.map Row.erasePosKey
  ∧ ((reconcile_positions_df internal pb).2.1).map Row.erasePosKey
      = pb.map Row.erasePosKey
  ∧ ((reconcile_positions_df internal pb).1).map Row.pos_key
      = internal.map (fun r => some (r.symbol ++ "|" ++ r.account_id))
  ∧ ((reconcile_positions_df internal pb).2.1).map Row.pos_key
      = pb.map (fun r => some (r.symbol ++ "|" ++ r.account_id))
  ∧ (reconcile_positions_df internal pb).2.2
      = reconcile_positions (internal.map Row.toPosition)
          (pb.map Row.toPosition) := by
  refine ⟨?_, ?_, ?_, ?_, rfl⟩ <;>
    simp [reconcile_positions_df, List.map_map, Function.comp,
      Row.setPosKey, Row.erasePosKey]
